import Mathlib

/-!
Shallow embedding of the `file_tree` program (src/main.rs): a recursive
directory walker that builds an in-memory tree of entries with aggregated
sizes, and a renderer that prints the tree with box-drawing connectors.

Filesystem interaction is modelled by a record of fallible primitives
(`FS`), paths as lists of raw OS-string components (byte lists), and text
as lists of unicode scalar values. Rust's `u64` size accumulation
(`total_size += entry.size`) is modelled by addition modulo `2 ^ 64`.
The unbounded recursion of the Rust builder is driven by a fuel
parameter; `none` marks fuel exhaustion (never the program's behaviour,
only the embedding's way to make recursion over an arbitrary `FS` total).
-/

namespace FTree

/-- Raw bytes of one OS string (a path component or link target text). -/
abbrev OsStr := List Nat

/-- A path, as its list of components (mirrors Rust `PathBuf`). -/
abbrev PathBuf := List OsStr

/-- Opaque I/O error value (mirrors `io::Error`; only identity matters). -/
abbrev IOError := Nat

/-- Result of `fs::DirEntry::file_type()` (`std::fs::FileType`). -/
inductive FileType where
  | dir
  | symlink
  | file
  | other
deriving DecidableEq

def FileType.is_dir : FileType → Bool
  | .dir => true
  | _ => false

def FileType.is_symlink : FileType → Bool
  | .symlink => true
  | _ => false

def FileType.is_file : FileType → Bool
  | .file => true
  | _ => false

/-- One element yielded by `fs::read_dir`: a parent path and a final
component name (mirrors `std::fs::DirEntry`). -/
structure DirEntry where
  parent : PathBuf
  name : OsStr
deriving DecidableEq

/-- Rust `DirEntry::path()`: the parent path joined with the entry name. -/
def DirEntry.path (de : DirEntry) : PathBuf := de.parent ++ [de.name]

/-- Rust `DirEntry::file_name()`. -/
def DirEntry.file_name (de : DirEntry) : OsStr := de.name

/-- The filesystem, as the record of the fallible primitives the program
calls: `fs::read_dir`, `DirEntry::file_type`, `fs::read_link`, and
`DirEntry::metadata().len()`. -/
structure FS where
  read_dir : PathBuf → Except IOError (List DirEntry)
  file_type : DirEntry → Except IOError FileType
  read_link : PathBuf → Except IOError PathBuf
  metadata_len : DirEntry → Except IOError Nat

mutual
/-- The tree node of src/main.rs: `struct Entry { name, size, data }`. -/
inductive Entry where
  | mk (name : OsStr) (size : Nat) (data : EntryData)
/-- The variant payload of src/main.rs: `enum EntryData`. -/
inductive EntryData where
  | File : EntryData
  | Symlink : PathBuf → EntryData
  | Directory : List Entry → EntryData
  | Unknown : EntryData
end

def Entry.name : Entry → OsStr
  | .mk n _ _ => n

def Entry.size : Entry → Nat
  | .mk _ s _ => s

def Entry.data : Entry → EntryData
  | .mk _ _ d => d

/-- The value returned by `get_file_tree`: the root path plus root entry. -/
structure FileTree where
  root_path : PathBuf
  root_entry : Entry

/-- Modulus of Rust's `u64` size arithmetic. -/
def U64_MOD : Nat := 2 ^ 64

/-- The `for dir_entry in dir_entries` loop body of `get_child_entries`:
convert each raw entry in order, pushing onto `entries` and accumulating
`total_size` (wrapping `u64` addition), aborting on the first error.
`conv` stands for the `TryFrom<fs::DirEntry>` conversion. -/
def child_fold (conv : DirEntry → Option (Except IOError Entry)) :
    List DirEntry → List Entry → Nat → Option (Except IOError (List Entry × Nat))
  | [], entries, total_size => some (.ok (entries, total_size))
  | de :: rest, entries, total_size =>
    match conv de with
    | none => none
    | some (.error e) => some (.error e)
    | some (.ok entry) =>
      child_fold conv rest (entries ++ [entry]) ((total_size + entry.size) % U64_MOD)

/-- Body of `get_child_entries`, abstracted over the child conversion:
`fs::read_dir(path)?` then the conversion loop. -/
def get_child_entries_f (fs : FS) (conv : DirEntry → Option (Except IOError Entry))
    (path : PathBuf) : Option (Except IOError (List Entry × Nat)) :=
  match fs.read_dir path with
  | .error e => some (.error e)
  | .ok dir_entries => child_fold conv dir_entries [] 0

/-- Body of `impl TryFrom<fs::DirEntry> for Entry`, abstracted over the
recursive call used for subdirectories: classify by `file_type()?`, then
build a `Directory` (recursing), `Symlink` (via `read_link`, size 0),
`File` (via `metadata().len()`), or `Unknown` (size 0) entry. -/
def entry_step (fs : FS) (conv : DirEntry → Option (Except IOError Entry))
    (dir_entry : DirEntry) : Option (Except IOError Entry) :=
  match fs.file_type dir_entry with
  | .error e => some (.error e)
  | .ok ft =>
    if ft.is_dir then
      match get_child_entries_f fs conv dir_entry.path with
      | none => none
      | some (.error e) => some (.error e)
      | some (.ok (children, size)) =>
        some (.ok (.mk dir_entry.file_name size (.Directory children)))
    else if ft.is_symlink then
      match fs.read_link dir_entry.path with
      | .error e => some (.error e)
      | .ok link_to => some (.ok (.mk dir_entry.file_name 0 (.Symlink link_to)))
    else if ft.is_file then
      match fs.metadata_len dir_entry with
      | .error e => some (.error e)
      | .ok len => some (.ok (.mk dir_entry.file_name len .File))
    else
      some (.ok (.mk dir_entry.file_name 0 .Unknown))

/-- The `TryFrom<fs::DirEntry> for Entry` conversion, with fuel bounding
the recursion depth. -/
def entry_try_from (fs : FS) : Nat → DirEntry → Option (Except IOError Entry)
  | 0 => fun _ => none
  | fuel + 1 => entry_step fs (entry_try_from fs fuel)

/-- `get_child_entries(path)`: list the directory and convert each child,
returning the children plus their accumulated total size. -/
def get_child_entries (fs : FS) (fuel : Nat) (path : PathBuf) :
    Option (Except IOError (List Entry × Nat)) :=
  get_child_entries_f fs (entry_try_from fs fuel) path

/-- Rust `Path::file_name()`: the final component, when there is one. -/
def file_name (path : PathBuf) : Option OsStr := path.getLast?

/-- `get_file_tree(path)`: list the root directly as a directory, name it
by the path's final component (empty when absent). -/
def get_file_tree (fs : FS) (fuel : Nat) (path : PathBuf) :
    Option (Except IOError FileTree) :=
  match get_child_entries fs fuel path with
  | none => none
  | some (.error e) => some (.error e)
  | some (.ok (children, size)) =>
    some (.ok { root_path := path
                root_entry := .mk ((file_name path).getD []) size (.Directory children) })

/-- Continuation byte test of the UTF-8 decoder: `0x80 ..= 0xBF`. -/
def is_cont (c : Nat) : Bool := decide (0x80 ≤ c ∧ c ≤ 0xBF)

/-- Valid second byte of a three-byte UTF-8 sequence whose lead is `b`. -/
def valid3 (b c1 : Nat) : Bool :=
  (b == 0xE0 && decide (0xA0 ≤ c1 ∧ c1 ≤ 0xBF)) ||
  (decide (0xE1 ≤ b ∧ b ≤ 0xEC) && is_cont c1) ||
  (b == 0xED && decide (0x80 ≤ c1 ∧ c1 ≤ 0x9F)) ||
  (decide (0xEE ≤ b ∧ b ≤ 0xEF) && is_cont c1)

/-- Valid second byte of a four-byte UTF-8 sequence whose lead is `b`. -/
def valid4 (b c1 : Nat) : Bool :=
  (b == 0xF0 && decide (0x90 ≤ c1 ∧ c1 ≤ 0xBF)) ||
  (decide (0xF1 ≤ b ∧ b ≤ 0xF3) && is_cont c1) ||
  (b == 0xF4 && decide (0x80 ≤ c1 ∧ c1 ≤ 0x8F))

/-- Lossy UTF-8 decoding of raw bytes to unicode scalar values, replacing
each maximal invalid subpart by U+FFFD — the model of Rust's
`OsStr::to_string_lossy`. Total: never fails on any byte sequence. -/
def utf8_lossy : List Nat → List Nat
  | [] => []
  | b :: rest =>
    if b < 0x80 then b :: utf8_lossy rest
    else if 0xC2 ≤ b ∧ b ≤ 0xDF then
      match rest with
      | [] => [0xFFFD]
      | c1 :: rest1 =>
        if is_cont c1 then ((b - 0xC0) * 0x40 + (c1 - 0x80)) :: utf8_lossy rest1
        else 0xFFFD :: utf8_lossy (c1 :: rest1)
    else if 0xE0 ≤ b ∧ b ≤ 0xEF then
      match rest with
      | [] => [0xFFFD]
      | [c1] => if valid3 b c1 then [0xFFFD] else 0xFFFD :: utf8_lossy [c1]
      | c1 :: c2 :: rest2 =>
        if valid3 b c1 then
          if is_cont c2 then
            ((b - 0xE0) * 0x1000 + (c1 - 0x80) * 0x40 + (c2 - 0x80)) :: utf8_lossy rest2
          else 0xFFFD :: utf8_lossy (c2 :: rest2)
        else 0xFFFD :: utf8_lossy (c1 :: c2 :: rest2)
    else if 0xF0 ≤ b ∧ b ≤ 0xF4 then
      match rest with
      | [] => [0xFFFD]
      | [c1] => if valid4 b c1 then [0xFFFD] else 0xFFFD :: utf8_lossy [c1]
      | [c1, c2] =>
        if valid4 b c1 then
          if is_cont c2 then [0xFFFD] else 0xFFFD :: utf8_lossy [c2]
        else 0xFFFD :: utf8_lossy [c1, c2]
      | c1 :: c2 :: c3 :: rest3 =>
        if valid4 b c1 then
          if is_cont c2 then
            if is_cont c3 then
              ((b - 0xF0) * 0x40000 + (c1 - 0x80) * 0x1000 + (c2 - 0x80) * 0x40 + (c3 - 0x80))
                :: utf8_lossy rest3
            else 0xFFFD :: utf8_lossy (c3 :: rest3)
          else 0xFFFD :: utf8_lossy (c2 :: c3 :: rest3)
        else 0xFFFD :: utf8_lossy (c1 :: c2 :: c3 :: rest3)
    else 0xFFFD :: utf8_lossy rest

/-- The `for _ in 0..depth` loop of `fmt_entry`: `depth` copies of the
segment space, U+2502 (vertical bar). -/
def bars : Nat → List Nat
  | 0 => []
  | d + 1 => bars d ++ [0x20, 0x2502]

/-- Everything `fmt_entry` writes before the newline decision: the bar
prefix, the connector (space plus U+2514 corner when last, space plus
U+251C tee otherwise, only at depth > 0), then the lossily decoded name. -/
def line_head (depth : Nat) (is_last : Bool) (name : OsStr) : List Nat :=
  bars depth
    ++ (if 0 < depth then (if is_last then [0x20, 0x2514] else [0x20, 0x251C]) else [])
    ++ utf8_lossy name

mutual
/-- The recursive `fmt_entry` of the `fmt::Debug` impl, producing the
emitted text as unicode scalar values (0x0A is the line break). -/
def fmt_entry : Entry → Nat → Bool → List Nat
  | .mk name _ (.Directory children), depth, is_last =>
    line_head depth is_last name ++ (0x0A :: fmt_children children (depth + 1)) ++ [0x0A]
  | .mk name _ .File, depth, is_last => line_head depth is_last name ++ [0x0A]
  | .mk name _ (.Symlink _), depth, is_last => line_head depth is_last name ++ [0x0A]
  | .mk name _ .Unknown, depth, is_last => line_head depth is_last name ++ [0x0A]
/-- The lookahead iteration of `fmt_entry` over a directory's children:
each child is rendered with `is_last` true exactly when no next child
remains. -/
def fmt_children : List Entry → Nat → List Nat
  | [], _ => []
  | [child], depth => fmt_entry child depth true
  | child :: next :: rest, depth =>
    fmt_entry child depth false ++ fmt_children (next :: rest) depth
end

/-- The whole `fmt::Debug` output for an entry: `fmt_entry(self, f, 0, true)`. -/
def render (entry : Entry) : List Nat := fmt_entry entry 0 true

mutual
/-- Number of nodes in an entry tree. -/
def entry_count : Entry → Nat
  | .mk _ _ (.Directory children) => 1 + entry_count_list children
  | _ => 1
def entry_count_list : List Entry → Nat
  | [] => 0
  | c :: rest => entry_count c + entry_count_list rest
end

mutual
/-- Number of `Directory` nodes in an entry tree. -/
def dir_count : Entry → Nat
  | .mk _ _ (.Directory children) => 1 + dir_count_list children
  | _ => 0
def dir_count_list : List Entry → Nat
  | [] => 0
  | c :: rest => dir_count c + dir_count_list rest
end

/-- Plain (unwrapped) sum of the sizes of a list of entries. -/
def child_size_sum (children : List Entry) : Nat :=
  (children.map Entry.size).sum

mutual
/-- The size invariant exactly as the specification words it: every
`Directory` node's size is the plain sum of its direct children's sizes. -/
def sizes_exact : Entry → Bool
  | .mk _ size (.Directory children) =>
    (size == child_size_sum children) && sizes_exact_list children
  | _ => true
def sizes_exact_list : List Entry → Bool
  | [] => true
  | c :: rest => sizes_exact c && sizes_exact_list rest
end

mutual
/-- The size invariant the code maintains: every `Directory` node's size
is the sum of its direct children's sizes reduced modulo `2 ^ 64`. -/
def sizes_wrapped : Entry → Bool
  | .mk _ size (.Directory children) =>
    (size == child_size_sum children % U64_MOD) && sizes_wrapped_list children
  | _ => true
def sizes_wrapped_list : List Entry → Bool
  | [] => true
  | c :: rest => sizes_wrapped c && sizes_wrapped_list rest
end

/-- Whether an entry's payload is the `Directory` variant. -/
def is_directory : Entry → Bool
  | .mk _ _ (.Directory _) => true
  | _ => false

/-- A name whose lossy decoding contains no line-break scalar. -/
def name_ok (name : OsStr) : Bool := decide (¬ 10 ∈ utf8_lossy name)

mutual
/-- Every name in the tree decodes without a line-break scalar. -/
def names_ok : Entry → Bool
  | .mk name _ (.Directory children) => name_ok name && names_ok_list children
  | .mk name _ _ => name_ok name
def names_ok_list : List Entry → Bool
  | [] => true
  | c :: rest => names_ok c && names_ok_list rest
end

/-- The head line of an emitted text block: everything before the first
line-break scalar. -/
def head_line (l : List Nat) : List Nat := l.takeWhile (fun v => v != 10)

section ConcreteInputs

/-- Name bytes of the scenario root directory, `root`. -/
def nm_root : OsStr := [114, 111, 111, 116]

/-- Name bytes of the scenario file `a.txt`. -/
def nm_a : OsStr := [97, 46, 116, 120, 116]

/-- Name bytes of the scenario subdirectory `sub`. -/
def nm_sub : OsStr := [115, 117, 98]

/-- Name bytes of the scenario file `b.txt`. -/
def nm_b : OsStr := [98, 46, 116, 120, 116]

/-- Name bytes of the scenario symlink `link`. -/
def nm_link : OsStr := [108, 105, 110, 107]

/-- The scenario path of the spec: a root directory named `root`. -/
def scen_path : PathBuf := [nm_root]

/-- The raw listing of the scenario root, in creation order. -/
def scen_des : List DirEntry :=
  [⟨scen_path, nm_a⟩, ⟨scen_path, nm_sub⟩, ⟨scen_path, nm_link⟩]

/-- The scenario filesystem of the spec (§8): `root/` holding `a.txt`
(4 bytes), `sub/` holding `b.txt` (6 bytes), and symlink `link -> a.txt`,
enumerated in that order; every other call fails with error 2. -/
def scenFS : FS where
  read_dir := fun p =>
    if p = scen_path then .ok scen_des
    else if p = scen_path ++ [nm_sub] then
      .ok [⟨scen_path ++ [nm_sub], nm_b⟩]
    else .error 2
  file_type := fun de =>
    if de.name = nm_sub then .ok .dir
    else if de.name = nm_link then .ok .symlink
    else if de.name = nm_a ∨ de.name = nm_b then .ok .file
    else .error 2
  read_link := fun p =>
    if p = scen_path ++ [nm_link] then .ok [nm_a] else .error 2
  metadata_len := fun de =>
    if de.name = nm_a then .ok 4
    else if de.name = nm_b then .ok 6
    else .error 2

/-- The children the scenario build produces for the root, in order. -/
def scen_children : List Entry :=
  [ .mk nm_a 4 .File,
    .mk nm_sub 6 (.Directory [.mk nm_b 6 .File]),
    .mk nm_link 0 (.Symlink [nm_a]) ]

/-- The tree the scenario filesystem builds. -/
def scen_tree : FileTree where
  root_path := scen_path
  root_entry := .mk nm_root 10 (.Directory scen_children)

/-- A filesystem whose root `x/` lists file `a` (1 byte, readable) and
then file `b`, whose metadata read fails with error 7: exercises the
first-failure abort after one child was already built. -/
def failFS : FS where
  read_dir := fun p =>
    if p = [[120]] then .ok [⟨[[120]], [97]⟩, ⟨[[120]], [98]⟩] else .error 9
  file_type := fun _ => .ok .file
  read_link := fun _ => .error 9
  metadata_len := fun de => if de.name = [97] then .ok 1 else .error 7

/-- Root name bytes of the overflow filesystem. -/
def nm_big : OsStr := [98, 105, 103]

/-- Path of the overflow filesystem's root. -/
def big_path : PathBuf := [nm_big]

/-- A filesystem whose root holds two regular files of `2 ^ 63` bytes
each, so that the `u64` total of the root directory wraps to 0. -/
def bigFS : FS where
  read_dir := fun p =>
    if p = big_path then .ok [⟨big_path, [97]⟩, ⟨big_path, [98]⟩]
    else .error 2
  file_type := fun _ => .ok .file
  read_link := fun _ => .error 2
  metadata_len := fun _ => .ok (2 ^ 63)

/-- The tree the overflow filesystem builds: both children keep their
`2 ^ 63` sizes, while the root total wraps to 0. -/
def big_tree : FileTree where
  root_path := big_path
  root_entry := .mk nm_big 0 (.Directory
    [ .mk [97] (2 ^ 63) .File, .mk [98] (2 ^ 63) .File ])

end ConcreteInputs

/-! ## Helper lemmas about the builder -/

theorem u64_pos : 0 < U64_MOD := by norm_num [U64_MOD]

theorem entry_try_from_succ (fs : FS) (fuel : Nat) (de : DirEntry) :
    entry_try_from fs (fuel + 1) de = entry_step fs (entry_try_from fs fuel) de := rfl

/-- Full characterisation of a successful run of the conversion loop:
the produced entries are the starting accumulator extended, one for one
and in order, by the converted raw entries, and the total is the wrapped
sum of the new sizes added onto the starting total. -/
theorem child_fold_ok (conv : DirEntry → Option (Except IOError Entry)) :
    ∀ (des : List DirEntry) (acc : List Entry) (tot : Nat), tot < U64_MOD →
      ∀ (es : List Entry) (t : Nat),
      child_fold conv des acc tot = some (.ok (es, t)) →
      ∃ new : List Entry,
        es = acc ++ new ∧
        new.length = des.length ∧
        (∀ (i : Nat) (h1 : i < des.length) (h2 : i < new.length),
          conv (des.get ⟨i, h1⟩) = some (.ok (new.get ⟨i, h2⟩))) ∧
        t = (tot + child_size_sum new) % U64_MOD := by
  intro des
  induction des with
  | nil =>
    intro acc tot htot es t h
    simp only [child_fold, Option.some.injEq, Except.ok.injEq, Prod.mk.injEq] at h
    refine ⟨[], by simp [h.1], rfl, by intro i h1 h2; simp at h1, ?_⟩
    simp [child_size_sum, ← h.2, Nat.mod_eq_of_lt htot]
  | cons de rest ih =>
    intro acc tot htot es t h
    cases hc : conv de with
    | none => simp [child_fold, hc] at h
    | some r =>
      cases r with
      | error e => simp [child_fold, hc] at h
      | ok entry =>
        have h' : child_fold conv rest (acc ++ [entry])
            ((tot + entry.size) % U64_MOD) = some (.ok (es, t)) := by
          simpa [child_fold, hc] using h
        obtain ⟨new', h1, h2, h3, h4⟩ :=
          ih (acc ++ [entry]) _ (Nat.mod_lt _ u64_pos) es t h'
        refine ⟨entry :: new', by simp [h1], by simp [h2], ?_, ?_⟩
        · intro i h1' h2'
          match i with
          | 0 => simpa [List.get] using hc
          | j + 1 =>
            simpa [List.get] using h3 j (by simpa using h1') (by simpa using h2')
        · rw [h4, Nat.mod_add_mod]
          simp [child_size_sum, Nat.add_assoc]

/-- A successful `get_child_entries` comes from a successful listing whose
raw entries convert one for one, in order, and the total is the wrapped
sum of the children's sizes. -/
theorem gce_ok_spec (fs : FS) (fuel : Nat) (path : PathBuf) (es : List Entry) (t : Nat)
    (h : get_child_entries fs fuel path = some (.ok (es, t))) :
    ∃ des, fs.read_dir path = .ok des ∧ es.length = des.length ∧
      (∀ (i : Nat) (h1 : i < des.length) (h2 : i < es.length),
        entry_try_from fs fuel (des.get ⟨i, h1⟩) = some (.ok (es.get ⟨i, h2⟩))) ∧
      t = child_size_sum es % U64_MOD := by
  cases hr : fs.read_dir path with
  | error e => simp [get_child_entries, get_child_entries_f, hr] at h
  | ok des =>
    have h' : child_fold (entry_try_from fs fuel) des [] 0 = some (.ok (es, t)) := by
      simpa [get_child_entries, get_child_entries_f, hr] using h
    obtain ⟨new, h1, h2, h3, h4⟩ := child_fold_ok _ des [] 0 u64_pos es t h'
    simp only [List.nil_append] at h1
    subst h1
    exact ⟨des, rfl, h2, h3, by simpa using h4⟩

/-- The conversion loop surfaces the error of the first failing child
conversion, whatever was already accumulated. -/
theorem child_fold_first_err (conv : DirEntry → Option (Except IOError Entry)) :
    ∀ (des : List DirEntry) (i : Nat) (h : i < des.length) (e : IOError)
      (acc : List Entry) (tot : Nat),
      (∀ (j : Nat) (hj : j < i), ∃ ent,
        conv (des.get ⟨j, Nat.lt_trans hj h⟩) = some (.ok ent)) →
      conv (des.get ⟨i, h⟩) = some (.error e) →
      child_fold conv des acc tot = some (.error e) := by
  intro des
  induction des with
  | nil => intro i h; simp at h
  | cons de rest ih =>
    intro i h e acc tot hpre hfail
    match i with
    | 0 =>
      simp only [List.get] at hfail
      simp [child_fold, hfail]
    | j + 1 =>
      obtain ⟨ent, hok⟩ := hpre 0 (Nat.succ_pos j)
      simp only [List.get] at hok
      simp only [child_fold, hok]
      exact ih j (by simpa using h) e _ _
        (fun k hk => by simpa [List.get] using hpre (k + 1) (by omega))
        (by simpa [List.get] using hfail)

mutual
/-- Bool-level conjunction over a list of entries for `sizes_wrapped`. -/
theorem sizes_wrapped_list_iff (cs : List Entry) :
    sizes_wrapped_list cs = true ↔ ∀ c ∈ cs, sizes_wrapped c = true := by
  cases cs with
  | nil => simp [sizes_wrapped_list]
  | cons c rest =>
    rw [sizes_wrapped_list, Bool.and_eq_true, sizes_wrapped_list_iff rest]
    simp
end

/-- Every entry a successful conversion produces satisfies the wrapped
size invariant at every level. -/
theorem entry_try_from_wrapped (fs : FS) :
    ∀ (fuel : Nat) (de : DirEntry) (ent : Entry),
      entry_try_from fs fuel de = some (.ok ent) → sizes_wrapped ent = true := by
  intro fuel
  induction fuel with
  | zero => intro de ent h; simp [entry_try_from] at h
  | succ fuel ih =>
    intro de ent h
    rw [entry_try_from_succ] at h
    unfold entry_step at h
    cases hft : fs.file_type de with
    | error e => simp [hft] at h
    | ok ft =>
      rw [hft] at h
      cases ft with
      | dir =>
        simp only [FileType.is_dir, if_true] at h
        cases hg : get_child_entries_f fs (entry_try_from fs fuel) de.path with
        | none => rw [hg] at h; exact absurd h (by simp)
        | some r =>
          cases r with
          | error e => rw [hg] at h; simp at h
          | ok p =>
            obtain ⟨children, size⟩ := p
            rw [hg] at h
            simp only [Option.some.injEq, Except.ok.injEq] at h
            obtain ⟨des, _, hlen, hconv, hsz⟩ :=
              gce_ok_spec fs fuel de.path children size hg
            subst h
            rw [sizes_wrapped, Bool.and_eq_true]
            constructor
            · simp [hsz]
            · rw [sizes_wrapped_list_iff]
              intro c hc
              obtain ⟨n, hn⟩ := List.mem_iff_get.mp hc
              have hn' : n.1 < des.length := by
                have := n.isLt
                omega
              have hcv := hconv n.1 hn' n.isLt
              rw [show children.get ⟨n.1, n.isLt⟩ = c from hn] at hcv
              exact ih _ _ hcv
      | symlink =>
        cases hl : fs.read_link de.path with
        | error e => simp [FileType.is_symlink, FileType.is_dir, hl] at h
        | ok t =>
          simp [FileType.is_symlink, FileType.is_dir, hl] at h
          rw [← h]
          rfl
      | file =>
        cases hm : fs.metadata_len de with
        | error e => simp [FileType.is_file, FileType.is_symlink, FileType.is_dir, hm] at h
        | ok len =>
          simp [FileType.is_file, FileType.is_symlink, FileType.is_dir, hm] at h
          rw [← h]
          rfl
      | other =>
        simp [FileType.is_file, FileType.is_symlink, FileType.is_dir] at h
        rw [← h]
        rfl

/-- A directory entry assembled from a successful `get_child_entries`
satisfies the wrapped size invariant (children included). -/
theorem gce_wrapped (fs : FS) (fuel : Nat) (path : PathBuf) (children : List Entry)
    (size : Nat) (nm : OsStr)
    (hg : get_child_entries fs fuel path = some (.ok (children, size))) :
    sizes_wrapped (.mk nm size (.Directory children)) = true := by
  obtain ⟨des, _, hlen, hconv, hsz⟩ := gce_ok_spec fs fuel path children size hg
  rw [sizes_wrapped, Bool.and_eq_true]
  constructor
  · simp [hsz]
  · rw [sizes_wrapped_list_iff]
    intro c hc
    obtain ⟨n, hn⟩ := List.mem_iff_get.mp hc
    have hn' : n.1 < des.length := by
      have := n.isLt
      omega
    have hcv := hconv n.1 hn' n.isLt
    rw [show children.get ⟨n.1, n.isLt⟩ = c from hn] at hcv
    exact entry_try_from_wrapped fs fuel _ _ hcv

/-! ## Claims about the builder -/

/-- Claim C1, counterexample: the plain (unwrapped) size-sum invariant
fails on a successfully built tree. On the overflow filesystem the root
holds two `2 ^ 63`-byte files; the build succeeds, the root's stored size
wraps to 0, and 0 is not the plain sum `2 ^ 64` of the children's sizes. -/
theorem claim_C1_counterexample :
    get_file_tree bigFS 1 big_path = some (.ok big_tree) ∧
    sizes_exact big_tree.root_entry = false :=
  ⟨rfl, rfl⟩

/-- Claim C1, amended: in every tree returned successfully by
`get_file_tree`, every `Directory` entry's size (the root included)
equals the sum of its direct children's sizes reduced modulo `2 ^ 64`
(equal to the plain sum whenever that sum fits in a `u64`). -/
theorem claim_C1_amended (fs : FS) (fuel : Nat) (path : PathBuf) (t : FileTree)
    (h : get_file_tree fs fuel path = some (.ok t)) :
    sizes_wrapped t.root_entry = true := by
  cases hg : get_child_entries fs fuel path with
  | none => rw [get_file_tree, hg] at h; simp at h
  | some r =>
    cases r with
    | error e => rw [get_file_tree, hg] at h; simp at h
    | ok p =>
      obtain ⟨children, size⟩ := p
      rw [get_file_tree, hg] at h
      simp only [Option.some.injEq, Except.ok.injEq] at h
      rw [← h]
      exact gce_wrapped fs fuel path children size _ hg

/-- Claim C1 witness: the spec scenario build satisfies the wrapped size
invariant. -/
theorem claim_C1_amended_witness : sizes_wrapped scen_tree.root_entry = true :=
  claim_C1_amended scenFS 2 scen_path scen_tree rfl

/-- Claim C10: directory totals are accumulated with wrapping unsigned
64-bit addition: a successful `get_child_entries` returns as total
exactly the sum of the produced children's sizes modulo `2 ^ 64`, so a
true sum of `2 ^ 64` or more silently wraps instead of erroring. -/
theorem claim_C10 (fs : FS) (fuel : Nat) (path : PathBuf) (entries : List Entry)
    (total : Nat) (h : get_child_entries fs fuel path = some (.ok (entries, total))) :
    total = child_size_sum entries % U64_MOD := by
  obtain ⟨_, _, _, _, hsz⟩ := gce_ok_spec fs fuel path entries total h
  exact hsz

/-- Claim C10 witness: on the overflow filesystem the returned total 0 is
the wrapped sum of the two `2 ^ 63`-byte children. -/
theorem claim_C10_witness :
    (0 : Nat) =
      child_size_sum [Entry.mk [97] (2 ^ 63) .File, Entry.mk [98] (2 ^ 63) .File]
        % U64_MOD :=
  claim_C10 bigFS 1 big_path
    [Entry.mk [97] (2 ^ 63) .File, Entry.mk [98] (2 ^ 63) .File] 0 rfl

/-- Claim C6: a successful `get_file_tree` always wraps the root in a
`Directory` entry (never the symlink/file/unknown branches), named by the
supplied path's final component, or the empty name when there is none. -/
theorem claim_C6 (fs : FS) (fuel : Nat) (path : PathBuf) (t : FileTree)
    (h : get_file_tree fs fuel path = some (.ok t)) :
    is_directory t.root_entry = true ∧
    t.root_entry.name = (file_name path).getD [] := by
  cases hg : get_child_entries fs fuel path with
  | none => rw [get_file_tree, hg] at h; simp at h
  | some r =>
    cases r with
    | error e => rw [get_file_tree, hg] at h; simp at h
    | ok p =>
      obtain ⟨children, size⟩ := p
      rw [get_file_tree, hg] at h
      simp only [Option.some.injEq, Except.ok.injEq] at h
      rw [← h]
      exact ⟨rfl, rfl⟩

/-- Claim C6 witness: the scenario root is a directory named `root`, the
final component of the supplied path. -/
theorem claim_C6_witness :
    is_directory scen_tree.root_entry = true ∧
    scen_tree.root_entry.name = (file_name scen_path).getD [] :=
  claim_C6 scenFS 2 scen_path scen_tree rfl

/-- Claim C7: (build side) the children stored by a successful
`get_child_entries` are exactly the entries the directory listing
yielded, converted one for one in listing order with no reordering,
insertion or removal; (render side) `fmt_entry` visits a directory's
stored children front to back, marking a child as last exactly when no
child follows it. -/
theorem claim_C7 :
    (∀ (fs : FS) (fuel : Nat) (path : PathBuf) (des : List DirEntry)
       (entries : List Entry) (total : Nat),
       fs.read_dir path = .ok des →
       get_child_entries fs fuel path = some (.ok (entries, total)) →
       entries.length = des.length ∧
         ∀ (i : Nat) (h1 : i < des.length) (h2 : i < entries.length),
           entry_try_from fs fuel (des.get ⟨i, h1⟩) = some (.ok (entries.get ⟨i, h2⟩))) ∧
    (∀ (c : Entry) (cs : List Entry) (d : Nat),
       fmt_children (c :: cs) d = fmt_entry c d cs.isEmpty ++ fmt_children cs d) := by
  constructor
  · intro fs fuel path des entries total hrd hg
    obtain ⟨des', hrd', hlen, hconv, _⟩ := gce_ok_spec fs fuel path entries total hg
    rw [hrd] at hrd'
    have : des = des' := Except.ok.inj hrd'
    subst this
    exact ⟨hlen, hconv⟩
  · intro c cs d
    cases cs with
    | nil => simp [fmt_children]
    | cons c2 rest => rfl

/-- Claim C7 witness: the second listed scenario entry (`sub`) converts to
the second stored child, the `sub` directory entry. -/
theorem claim_C7_witness :
    entry_try_from scenFS 2 (DirEntry.mk scen_path nm_sub) =
      some (.ok (Entry.mk nm_sub 6 (.Directory [Entry.mk nm_b 6 .File]))) :=
  (claim_C7.1 scenFS 2 scen_path scen_des scen_children 10 rfl rfl).2 1
    (by decide) (by decide)

/-- Claim C5: a child whose own type is a symbolic link becomes a
`Symlink` entry of size 0 carrying the raw, unresolved target returned by
`read_link`; and the result is unchanged under any change to the rest of
the filesystem or to the recursion allowance, so the builder never
resolves the target, checks it, or descends through it. -/
theorem claim_C5 :
    (∀ (fs : FS) (fuel : Nat) (de : DirEntry) (target : PathBuf),
      fs.file_type de = .ok .symlink →
      fs.read_link de.path = .ok target →
      entry_try_from fs (fuel + 1) de =
        some (.ok (.mk de.file_name 0 (.Symlink target)))) ∧
    (∀ (fs fs' : FS) (fuel fuel' : Nat) (de : DirEntry),
      fs.file_type de = .ok .symlink →
      fs'.file_type de = .ok .symlink →
      fs.read_link de.path = fs'.read_link de.path →
      entry_try_from fs (fuel + 1) de = entry_try_from fs' (fuel' + 1) de) := by
  constructor
  · intro fs fuel de target h1 h2
    rw [entry_try_from_succ]
    unfold entry_step
    rw [h1]
    simp [FileType.is_dir, FileType.is_symlink, h2]
  · intro fs fs' fuel fuel' de h1 h1' h2
    rw [entry_try_from_succ, entry_try_from_succ]
    unfold entry_step
    rw [h1, h1', h2]
    rfl

/-- Claim C5 witness: the scenario symlink `link` builds to a `Symlink`
entry of size 0 whose payload is the raw target `a.txt`. -/
theorem claim_C5_witness :
    entry_try_from scenFS 1 (DirEntry.mk scen_path nm_link) =
      some (.ok (Entry.mk nm_link 0 (.Symlink [nm_a]))) :=
  claim_C5.1 scenFS 0 (DirEntry.mk scen_path nm_link) [nm_a] rfl rfl

/-- Claim C4: every failing filesystem call aborts the whole build with
that error and no tree value: a failing root listing fails
`get_file_tree`; the first failing child conversion fails the build even
when all earlier siblings converted successfully (they are discarded);
and a failing type classification, child listing, link read, or metadata
read each fail the child conversion with the underlying error. -/
theorem claim_C4 :
    (∀ (fs : FS) (fuel : Nat) (path : PathBuf) (e : IOError),
      fs.read_dir path = .error e → get_file_tree fs fuel path = some (.error e)) ∧
    (∀ (fs : FS) (fuel : Nat) (path : PathBuf) (des : List DirEntry) (i : Nat)
       (h : i < des.length) (e : IOError),
      fs.read_dir path = .ok des →
      (∀ (j : Nat) (hj : j < i), ∃ ent,
        entry_try_from fs fuel (des.get ⟨j, Nat.lt_trans hj h⟩) = some (.ok ent)) →
      entry_try_from fs fuel (des.get ⟨i, h⟩) = some (.error e) →
      get_file_tree fs fuel path = some (.error e)) ∧
    (∀ (fs : FS) (fuel : Nat) (de : DirEntry) (e : IOError),
      fs.file_type de = .error e →
      entry_try_from fs (fuel + 1) de = some (.error e)) ∧
    (∀ (fs : FS) (fuel : Nat) (de : DirEntry) (e : IOError),
      fs.file_type de = .ok .dir → fs.read_dir de.path = .error e →
      entry_try_from fs (fuel + 1) de = some (.error e)) ∧
    (∀ (fs : FS) (fuel : Nat) (de : DirEntry) (e : IOError),
      fs.file_type de = .ok .symlink → fs.read_link de.path = .error e →
      entry_try_from fs (fuel + 1) de = some (.error e)) ∧
    (∀ (fs : FS) (fuel : Nat) (de : DirEntry) (e : IOError),
      fs.file_type de = .ok .file → fs.metadata_len de = .error e →
      entry_try_from fs (fuel + 1) de = some (.error e)) := by
  refine ⟨?_, ?_, ?_, ?_, ?_, ?_⟩
  · intro fs fuel path e h
    simp [get_file_tree, get_child_entries, get_child_entries_f, h]
  · intro fs fuel path des i h e hrd hpre hfail
    have hcf := child_fold_first_err (entry_try_from fs fuel) des i h e [] 0 hpre hfail
    simp [get_file_tree, get_child_entries, get_child_entries_f, hrd, hcf]
  · intro fs fuel de e h
    rw [entry_try_from_succ]
    unfold entry_step
    rw [h]
  · intro fs fuel de e h1 h2
    rw [entry_try_from_succ]
    unfold entry_step
    rw [h1]
    simp [FileType.is_dir, get_child_entries_f, h2]
  · intro fs fuel de e h1 h2
    rw [entry_try_from_succ]
    unfold entry_step
    rw [h1]
    simp [FileType.is_dir, FileType.is_symlink, h2]
  · intro fs fuel de e h1 h2
    rw [entry_try_from_succ]
    unfold entry_step
    rw [h1]
    simp [FileType.is_dir, FileType.is_symlink, FileType.is_file, h2]

/-- Claim C4 witness: a failing root listing yields exactly that error;
and on the `failFS` root the second child's metadata failure (error 7)
aborts the whole build after the first child was already built. -/
theorem claim_C4_witness :
    get_file_tree scenFS 1 [nm_b] = some (.error 2) ∧
    get_file_tree failFS 1 [[120]] = some (.error 7) :=
  ⟨claim_C4.1 scenFS 1 [nm_b] 2 rfl,
    claim_C4.2.1 failFS 1 [[120]] [⟨[[120]], [97]⟩, ⟨[[120]], [98]⟩] 1 (by decide) 7 rfl
      (by
        intro j hj
        have hj0 : j = 0 := by omega
        subst hj0
        exact ⟨Entry.mk [97] 1 .File, rfl⟩)
      rfl⟩

/-! ## Helper lemmas about the renderer -/

/-- Every `fmt_entry` block ends with a line break. -/
theorem fmt_entry_last (e : Entry) (depth : Nat) (b : Bool) :
    (fmt_entry e depth b).getLast? = some 10 := by
  obtain ⟨name, sz, data⟩ := e
  cases data <;> simp only [fmt_entry] <;> exact List.getLast?_concat _

/-- The bar prefix contains no line-break scalar. -/
theorem bars_no10 (d : Nat) : (10 : Nat) ∉ bars d := by
  induction d with
  | zero => simp [bars]
  | succ d ih => simp [bars, ih]

/-- The bar prefix is `depth` repetitions of the two-scalar segment
space, U+2502. -/
theorem bars_eq_replicate (d : Nat) :
    bars d = (List.replicate d [(0x20 : Nat), 0x2502]).flatten := by
  induction d with
  | zero => simp [bars]
  | succ d ih =>
    have flip : ∀ n : Nat,
        (List.replicate n [(0x20 : Nat), 0x2502]).flatten ++ [0x20, 0x2502] =
        [(0x20 : Nat), 0x2502] ++ (List.replicate n [(0x20 : Nat), 0x2502]).flatten := by
      intro n
      induction n with
      | zero => simp
      | succ n ihn => simp only [List.replicate_succ, List.flatten_cons,
          List.append_assoc, ihn]
    rw [bars, ih, List.replicate_succ, List.flatten_cons, flip]

/-- No scalar of a head line is a line break, given a clean name. -/
theorem line_head_no10 (d : Nat) (b : Bool) (name : OsStr)
    (hn : (10 : Nat) ∉ utf8_lossy name) :
    ∀ x ∈ line_head d b name, x ≠ 10 := by
  intro x hx
  rw [line_head] at hx
  rcases List.mem_append.mp hx with hx' | hx'
  · rcases List.mem_append.mp hx' with hb | hc
    · intro he
      subst he
      exact bars_no10 d hb
    · intro he
      subst he
      rcases Nat.lt_or_ge 0 d with hd | hd
      · simp [hd] at hc
        cases b <;> simp at hc
      · have : d = 0 := by omega
        simp [this] at hc
  · intro he
    subst he
    exact hn hx'

/-- `head_line` passes over a break-free block. -/
theorem head_line_append (a r : List Nat) (h : ∀ x ∈ a, x ≠ 10) :
    head_line (a ++ r) = a ++ head_line r := by
  induction a with
  | nil => simp
  | cons x xs ih =>
    have hx : (x != 10) = true := by
      simpa using h x (List.mem_cons_self x xs)
    rw [List.cons_append, head_line, List.takeWhile_cons, hx]
    simp only [if_true]
    rw [show (List.takeWhile (fun v => v != 10) (xs ++ r)) = head_line (xs ++ r) from rfl,
      ih (fun y hy => h y (List.mem_cons_of_mem x hy)), List.cons_append]

/-- `head_line` stops at a leading line break. -/
theorem head_line_cons10 (l : List Nat) : head_line (10 :: l) = [] := by
  simp [head_line, List.takeWhile_cons]

/-- A head line with a clean name counts no line break. -/
theorem line_head_count10 (d : Nat) (b : Bool) (name : OsStr)
    (hn : (10 : Nat) ∉ utf8_lossy name) :
    (line_head d b name).count 10 = 0 := by
  rw [List.count_eq_zero]
  intro hmem
  exact line_head_no10 d b name hn 10 hmem rfl

/-- Bool-level name cleanliness gives the membership fact. -/
theorem name_ok_spec (name : OsStr) (h : name_ok name = true) :
    (10 : Nat) ∉ utf8_lossy name := by
  simpa [name_ok] using h

mutual
/-- With break-free names, one `fmt_entry` block contains one line break
per entry plus one extra per directory entry. -/
theorem fmt_entry_count10 (e : Entry) (depth : Nat) (b : Bool)
    (h : names_ok e = true) :
    (fmt_entry e depth b).count 10 = entry_count e + dir_count e := by
  match e with
  | .mk name sz (.Directory cs) =>
    rw [names_ok, Bool.and_eq_true] at h
    have hcs := fmt_children_count10 cs (depth + 1) h.2
    simp only [fmt_entry, entry_count, dir_count, List.count_append, List.count_cons,
      List.count_nil, hcs, line_head_count10 depth b name (name_ok_spec name h.1)]
    simp
    omega
  | .mk name sz .File =>
    simp only [names_ok] at h
    simp only [fmt_entry, entry_count, dir_count, List.count_append,
      line_head_count10 depth b name (name_ok_spec name h)]
    simp
  | .mk name sz (.Symlink t) =>
    simp only [names_ok] at h
    simp only [fmt_entry, entry_count, dir_count, List.count_append,
      line_head_count10 depth b name (name_ok_spec name h)]
    simp
  | .mk name sz .Unknown =>
    simp only [names_ok] at h
    simp only [fmt_entry, entry_count, dir_count, List.count_append,
      line_head_count10 depth b name (name_ok_spec name h)]
    simp
/-- List version of `fmt_entry_count10` over a directory's children. -/
theorem fmt_children_count10 (cs : List Entry) (depth : Nat)
    (h : names_ok_list cs = true) :
    (fmt_children cs depth).count 10 = entry_count_list cs + dir_count_list cs := by
  match cs with
  | [] => simp [fmt_children, entry_count_list, dir_count_list]
  | [c] =>
    rw [names_ok_list, Bool.and_eq_true] at h
    have hc := fmt_entry_count10 c depth true h.1
    simp only [fmt_children, entry_count_list, dir_count_list, hc]
    omega
  | c :: c2 :: rest =>
    rw [names_ok_list, Bool.and_eq_true] at h
    have hc := fmt_entry_count10 c depth false h.1
    have hrest := fmt_children_count10 (c2 :: rest) depth h.2
    simp only [fmt_children, List.count_append, hc, hrest, entry_count_list,
      dir_count_list]
    omega
end

/-- The child loop of the renderer, unfolded once when more children
remain. -/
theorem fmt_children_cons_ne (z : Entry) (l : List Entry) (d : Nat) (h : l ≠ []) :
    fmt_children (z :: l) d = fmt_entry z d false ++ fmt_children l d := by
  cases l with
  | nil => exact absurd rfl h
  | cons y rest => rfl

/-! ## Claims about the renderer -/

/-- Claim C2, counterexample: the output does not have one line per
entry. The scenario tree has 5 entries but its rendering contains 7 line
breaks — the renderer closes every directory's child block with an extra
(blank) line. -/
theorem claim_C2_counterexample :
    (render scen_tree.root_entry).count 10 = 7 ∧
    entry_count scen_tree.root_entry = 5 ∧
    (render scen_tree.root_entry).count 10 ≠ entry_count scen_tree.root_entry := by
  refine ⟨?_, ?_, ?_⟩ <;> decide

/-- Claim C2, amended: for a tree of N entries of which D are
directories (and whose decoded names contain no line break), the
rendered text contains exactly N + D line breaks — one line per entry
plus one blank line closing each directory's child block (the root
included) — and the output still ends with a line break. -/
theorem claim_C2_amended (e : Entry) (h : names_ok e = true) :
    (render e).count 10 = entry_count e + dir_count e ∧
    (render e).getLast? = some 10 :=
  ⟨fmt_entry_count10 e 0 true h, fmt_entry_last e 0 true⟩

/-- Claim C2 witness: the scenario tree (5 entries, 2 directories)
renders with 7 line breaks and ends with one. -/
theorem claim_C2_amended_witness :
    (render scen_tree.root_entry).count 10 =
      entry_count scen_tree.root_entry + dir_count scen_tree.root_entry ∧
    (render scen_tree.root_entry).getLast? = some 10 :=
  claim_C2_amended scen_tree.root_entry (by decide)

/-- Claim C3: an entry's own line is exactly `depth` repetitions of the
two-scalar segment space + U+2502, then (only at depth > 0) a connector
segment — space + U+2514 corner when last, space + U+251C tee otherwise
— then the lossily decoded name (total on any bytes); and among a
directory's N ≥ 1 rendered children exactly the final one is rendered
with the last flag. -/
theorem claim_C3 :
    (∀ (e : Entry) (d : Nat) (b : Bool), (10 : Nat) ∉ utf8_lossy e.name →
      head_line (fmt_entry e d b) =
        (List.replicate d [(0x20 : Nat), 0x2502]).flatten ++
          (if 0 < d then (if b then [(0x20 : Nat), 0x2514] else [(0x20 : Nat), 0x251C])
            else []) ++
          utf8_lossy e.name) ∧
    (∀ (cs : List Entry) (c : Entry) (d : Nat),
      fmt_children (cs ++ [c]) d =
        (cs.map (fun x => fmt_entry x d false)).flatten ++ fmt_entry c d true) := by
  constructor
  · intro e d b hn
    obtain ⟨name, sz, data⟩ := e
    have hn' : (10 : Nat) ∉ utf8_lossy name := hn
    have hlh := line_head_no10 d b name hn'
    have hrw : head_line (line_head d b name ++ [10]) = line_head d b name := by
      rw [head_line_append _ _ hlh]
      simp [head_line]
    cases data <;> simp only [fmt_entry]
    case Directory children =>
      rw [List.append_assoc, List.cons_append, head_line_append _ _ hlh,
        head_line_cons10, List.append_nil, line_head, bars_eq_replicate]
      simp [Entry.name]
    all_goals rw [hrw, line_head, bars_eq_replicate]; simp [Entry.name]
  · intro cs c d
    induction cs with
    | nil => simp [fmt_children]
    | cons z cs' ih =>
      rw [List.cons_append, fmt_children_cons_ne z (cs' ++ [c]) d (by simp), ih]
      simp

/-- Claim C3 witness: the line of a file entry named `a.txt` rendered at
depth 1 as a non-last child: one bar segment, the tee connector, then
the decoded name. -/
theorem claim_C3_witness :
    head_line (fmt_entry (Entry.mk nm_a 4 .File) 1 false) =
      (List.replicate 1 [(0x20 : Nat), 0x2502]).flatten ++
        [(0x20 : Nat), 0x251C] ++ utf8_lossy nm_a :=
  claim_C3.1 (Entry.mk nm_a 4 .File) 1 false (by decide)

/-- Claim C8: the renderer is deterministic — rendering the same tree
value twice produces identical text, there being no dependence on
anything but the tree (in the embedding `render` is a pure function, so
this is definitional). -/
theorem claim_C8 (entry : Entry) : render entry = render entry := rfl

/-- Claim C9: the renderer is total — for every structurally well-formed
finite entry tree, at every depth and last flag, it terminates and
produces a text result (one that ends with a line break); there is no
error path. -/
theorem claim_C9 (e : Entry) (depth : Nat) (is_last : Bool) :
    ∃ out : List Nat, fmt_entry e depth is_last = out ∧ out.getLast? = some 10 :=
  ⟨fmt_entry e depth is_last, rfl, fmt_entry_last e depth is_last⟩

end FTree
